import Mathlib

/-!
# Verification of the stereo block-matching core (`src/main.cpp`)

This file gives a shallow embedding of `compute_dispmap` from `src/main.cpp`
and proves/refutes the specification claims about it.

Modelling conventions:
* `cv::Mat` (grayscale, `CV_8UC1`) is a structure carrying its `int` dimensions
  and a total pixel function; pixel values are naturals (8-bit samples).
* C++ `int` is embedded as `ℤ` and `unsigned` as `ℕ`; at the places where the
  source mixes the two and 32-bit wraparound can actually fire (the loop-bound
  comparisons `y < limg.rows - w - 1` and `x < limg.cols + mindisp - w - 1`,
  and the `unsigned`/`int` initialisers), the conversions are made explicit
  with `% 2^32` (`toUInt32` / `toInt32`).  Coordinate arithmetic inside the
  loop body round-trips `int → unsigned → int` and is exact whenever the
  magnitudes are below `2^31`, which the theorems assume explicitly.
* `cv::Mat::operator()(Rect)` bounds-checks and throws; it is embedded as an
  `Option`-returning `submat`.  A thrown exception aborts `compute_dispmap`,
  so the engine returns `Except Unit` (the error value standing for the
  propagated `cv::Exception`).
* `cv::matchTemplate(..., TM_CCORR_NORMED)` computes, for each placement of
  the template, `Σ T·I / sqrt(Σ T² · Σ I²)` (0 when the denominator vanishes).
  Since numerator and both sum-of-squares are exact naturals here, a score is
  embedded as the pair (numerator, product of the two sums of squares); its
  real value is recovered by `nccVal`.  Score comparison (`cv::minMaxLoc`
  compares the floating-point values) is the decidable `scoreLt`, proved
  equivalent to comparison of the real values.
* `cv::minMaxLoc` scans the result row-major and keeps the first position
  attaining the maximum (it updates only on strictly greater values);
  `selectBest` embeds that selection on a row of scores.
-/

namespace StereoMatch

/-- Reinterpret an `int` expression as C++ `unsigned` (32-bit): value mod `2^32`. -/
def toUInt32 (n : ℤ) : ℕ := (n % 2 ^ 32).toNat

/-- Convert a value to C++ signed 32-bit `int` (two's-complement wraparound). -/
def toInt32 (n : ℤ) : ℤ :=
  if n % 2 ^ 32 < 2 ^ 31 then n % 2 ^ 32 else n % 2 ^ 32 - 2 ^ 32

/-- Embedding of `cv::Mat` with 8-bit samples: `int` dimensions and a total pixel function
`data row col`.  Out-of-range reads never occur in the verified paths. -/
structure Mat where
  rows : ℤ
  cols : ℤ
  data : ℤ → ℤ → ℕ

/-- Embedding of `cv::Rect`: origin `(x, y)`, extent `width × height`. -/
structure Rect where
  x : ℤ
  y : ℤ
  width : ℤ
  height : ℤ
deriving DecidableEq

/-- Embedding of `cv::Rect_(pt1, pt2)`: the constructor from two corner points normalises,
taking componentwise `min` for the origin and the absolute differences as
extents. -/
def rectOfPoints (p1 p2 : ℤ × ℤ) : Rect where
  x := min p1.1 p2.1
  y := min p1.2 p2.2
  width := max p1.1 p2.1 - min p1.1 p2.1
  height := max p1.2 p2.2 - min p1.2 p2.2

/-- Embedding of `cv::Mat::operator()(Rect)`: the ROI view.  OpenCV asserts
`0 ≤ roi.x ∧ 0 ≤ roi.width ∧ roi.x + roi.width ≤ cols` (and likewise
vertically) and throws `cv::Exception` otherwise; the throw is `none`. -/
def submat (m : Mat) (r : Rect) : Option Mat :=
  if 0 ≤ r.x ∧ 0 ≤ r.width ∧ r.x + r.width ≤ m.cols ∧
     0 ≤ r.y ∧ 0 ≤ r.height ∧ r.y + r.height ≤ m.rows then
    some { rows := r.height, cols := r.width,
           data := fun i j => m.data (r.y + i) (r.x + j) }
  else none

/-- One `TM_CCORR_NORMED` correlation score, kept in exact form:
`num = Σ T·I` and `den = (Σ I²)·(Σ T²)`; the floating-point value the C++
code compares and maximises is `num / sqrt den` (0 when `den = 0`). -/
structure Score where
  num : ℕ
  den : ℕ
deriving DecidableEq

instance : Inhabited Score := ⟨⟨0, 0⟩⟩

/-- The exact score of placing `templ` on `img` at offset `(dy, dx)`:
numerator `Σ T·I` and denominator `(Σ I²)·(Σ T²)` of `TM_CCORR_NORMED`. -/
def windowScore (img templ : Mat) (dy dx : ℕ) : Score :=
  let h := templ.rows.toNat
  let wd := templ.cols.toNat
  { num := ∑ i ∈ Finset.range h, ∑ j ∈ Finset.range wd,
      img.data (dy + i) (dx + j) * templ.data i j
    den := (∑ i ∈ Finset.range h, ∑ j ∈ Finset.range wd,
      img.data (dy + i) (dx + j) * img.data (dy + i) (dx + j)) *
      (∑ i ∈ Finset.range h, ∑ j ∈ Finset.range wd,
      templ.data i j * templ.data i j) }

/-- Embedding of `cv::matchTemplate(img, templ, ·, TM_CCORR_NORMED)`: the
`(img.rows - templ.rows + 1) × (img.cols - templ.cols + 1)` result array of
scores, row-major. -/
def matchTemplate (img templ : Mat) : List (List Score) :=
  (List.range (img.rows - templ.rows + 1).toNat).map fun dy =>
    (List.range (img.cols - templ.cols + 1).toNat).map fun dx =>
      windowScore img templ dy dx

/-- Comparison of the floating-point values of two exact scores:
`scoreLt s t` iff `num_s/√den_s < num_t/√den_t` (with the 0-denominator
convention).  Stated decidably; `scoreLt_iff_val` proves the equivalence. -/
def scoreLt (s t : Score) : Prop :=
  (t.num ≠ 0 ∧ t.den ≠ 0) ∧
    (s.num = 0 ∨ s.den = 0 ∨ s.num ^ 2 * t.den < t.num ^ 2 * s.den)

instance (s t : Score) : Decidable (scoreLt s t) := by
  unfold scoreLt; infer_instance

/-- The index selection of `cv::minMaxLoc` restricted to one row: the first
index attaining the maximal score (the scan updates only on strictly greater
values, so ties keep the earlier index). -/
def selectBest : List Score → ℕ
  | [] => 0
  | s :: rest =>
    match rest with
    | [] => 0
    | _ :: _ =>
      let r := selectBest rest
      if scoreLt s (rest.getD r default) then r + 1 else 0

/-- Embedding of `cv::minMaxLoc(nccs, ..., &max, ...)` on the row-major score array:
position `(x, y)` of the first maximal entry in row-major scan order. -/
def minMaxLoc (m : List (List Score)) : ℤ × ℤ :=
  let flat := m.flatten
  let wd := (m.headD []).length
  let idx := selectBest flat
  ((idx % wd : ℕ), (idx / wd : ℕ))

/-- The `cv::Rect block{cv::Point(x - w, y - w), cv::Size(blocksize, blocksize)}`
of the loop body (coordinate arithmetic exact; see header). -/
def blockRect (x : ℤ) (y w : ℕ) (blocksize : ℤ) : Rect :=
  ⟨x - w, (y : ℤ) - w, blocksize, blocksize⟩

/-- The `cv::Rect slice{cv::Point(x - w - maxdisp, y - w),
cv::Point(x + w + 1 - mindisp, y + w + 1)}` of the loop body. -/
def sliceRect (x : ℤ) (y w : ℕ) (mindisp maxdisp : ℤ) : Rect :=
  rectOfPoints (x - w - maxdisp, (y : ℤ) - w)
    (x + w + 1 - mindisp, (y : ℤ) + w + 1)

/-- The score row the loop body computes at `(x, y)`: block from the left
image, strip from the right image, `matchTemplate` of the two (flattened;
with an odd `blocksize` the result array has exactly one row). -/
def scoreRowAt (limg rimg : Mat) (mindisp blocksize maxdisp : ℤ)
    (w y : ℕ) (x : ℤ) : Option (List Score) :=
  (submat limg (blockRect x y w blocksize)).bind fun feature =>
    (submat rimg (sliceRect x y w mindisp maxdisp)).map fun img =>
      (matchTemplate img feature).flatten

/-- One iteration of the inner loop body of `compute_dispmap` at coordinate
`(x, y)`: extract the block and the strip (either failure is the propagated
`cv::Exception`), score, select, and produce the write
`dispmap.at<uchar>(y, x) = max.x` (the `int → uchar` store truncates
mod 256). -/
def body (limg rimg : Mat) (mindisp blocksize maxdisp : ℤ)
    (w y : ℕ) (x : ℤ) : Except Unit ((ℤ × ℤ) × ℕ) :=
  match submat limg (blockRect x y w blocksize) with
  | none => .error ()
  | some feature =>
    match submat rimg (sliceRect x y w mindisp maxdisp) with
    | none => .error ()
    | some img =>
      let nccs := matchTemplate img feature
      let mx := minMaxLoc nccs
      .ok (((y : ℤ), x), (mx.1 % 256).toNat)

/-- The inner `for` loop: run `f` at `x, x+1, ...` for `n` iterations,
collecting the writes in order; a thrown exception aborts. -/
def innerLoop (f : ℤ → Except Unit ((ℤ × ℤ) × ℕ)) :
    ℤ → ℕ → Except Unit (List ((ℤ × ℤ) × ℕ))
  | _, 0 => .ok []
  | x, n + 1 =>
    match f x with
    | .error e => .error e
    | .ok r =>
      match innerLoop f (x + 1) n with
      | .error e => .error e
      | .ok l => .ok (r :: l)

/-- The outer `for` loop: run the row computation at `y, y+1, ...` for `n`
iterations, concatenating the writes; a thrown exception aborts. -/
def outerLoop (g : ℕ → Except Unit (List ((ℤ × ℤ) × ℕ))) :
    ℕ → ℕ → Except Unit (List ((ℤ × ℤ) × ℕ))
  | _, 0 => .ok []
  | y, n + 1 =>
    match g y with
    | .error e => .error e
    | .ok l =>
      match outerLoop g (y + 1) n with
      | .error e => .error e
      | .ok l2 => .ok (l ++ l2)

/-- The engine `compute_dispmap`, as the ordered list of writes it performs into
`dispmap` (or the propagated exception).

The loop heads of the source are reproduced exactly, including the
`unsigned`/`int` mixing:
* `unsigned w = blocksize / 2` (`int` division, then conversion);
* the outer guard `y < limg.rows - w - 1` is an `unsigned` comparison
  (`limg.rows` is converted), so the bound is `toUInt32 (rows - w - 1)`;
* `int maxdisp = numdisp + mindisp` wraps through `unsigned`;
* `int x = maxdisp + w` likewise;
* the inner guard `x < limg.cols + mindisp - w - 1` compares
  `toUInt32 x` against `toUInt32 (cols + mindisp - w - 1)`; since the
  left side increases by exactly 1 mod `2^32` per iteration, the loop
  executes `bound - start` times (0 if `start ≥ bound`). -/
def compute_dispmap_trace (limg rimg : Mat) (numdisp : ℕ)
    (mindisp blocksize : ℤ) : Except Unit (List ((ℤ × ℤ) × ℕ)) :=
  let w : ℕ := toUInt32 (blocksize.tdiv 2)
  let yBound : ℕ := toUInt32 (limg.rows - w - 1)
  let maxdisp : ℤ := toInt32 ((numdisp : ℤ) + mindisp)
  let x0 : ℤ := toInt32 (maxdisp + w)
  let xBound : ℕ := toUInt32 (limg.cols + mindisp - w - 1)
  let xStart : ℕ := toUInt32 x0
  outerLoop
    (fun y => innerLoop (body limg rimg mindisp blocksize maxdisp w y)
      x0 (xBound - xStart))
    w (yBound - w)

/-- Overlay a list of writes `((y, x), v)` on the initial (unspecified)
contents of the freshly allocated `dispmap`. -/
def applyWrites (init : ℤ → ℤ → ℕ) (l : List ((ℤ × ℤ) × ℕ)) : ℤ → ℤ → ℕ :=
  l.foldl (fun acc e => fun i j => if i = e.1.1 ∧ j = e.1.2 then e.2 else acc i j)
    init

/-- The engine `compute_dispmap` with the result grid materialised:
`cv::Mat dispmap(limg.rows, limg.cols, CV_8UC1)` holds arbitrary contents
`init` at allocation, and the engine overlays its writes. -/
def compute_dispmap (limg rimg : Mat) (numdisp : ℕ) (mindisp blocksize : ℤ)
    (init : ℤ → ℤ → ℕ) : Except Unit Mat :=
  (compute_dispmap_trace limg rimg numdisp mindisp blocksize).map fun tr =>
    { rows := limg.rows, cols := limg.cols, data := applyWrites init tr }

/-! ### The real value of a score -/

/-- The floating-point value `matchTemplate` stores for a score, idealised
over `ℝ`: `num / sqrt den`, and 0 when the denominator vanishes (OpenCV's
normalisation guard yields exactly 0 there for `TM_CCORR_NORMED`). -/
noncomputable def nccVal (s : Score) : ℝ :=
  if s.den = 0 then 0 else (s.num : ℝ) / Real.sqrt (s.den : ℝ)

/-- Normalized cross-correlation of two `h × wd` sample windows, per spec
§4.4: `(Σ a·b) / sqrt(Σ a² · Σ b²)`, defined as 0 when either window is
uniformly zero (degenerate rule). -/
noncomputable def ncc (a b : ℕ → ℕ → ℕ) (h wd : ℕ) : ℝ :=
  nccVal ⟨∑ i ∈ Finset.range h, ∑ j ∈ Finset.range wd, a i j * b i j,
    (∑ i ∈ Finset.range h, ∑ j ∈ Finset.range wd, a i j * a i j) *
    (∑ i ∈ Finset.range h, ∑ j ∈ Finset.range wd, b i j * b i j)⟩

/-! ### The eligible-coordinate enumeration of spec §4.1 -/

/-- The spec's eligible row indices: `y ∈ [w, rows − w − 2]` (inclusive),
`w = blocksize/2`, enumerated in increasing order. -/
def specYs (rows blocksize : ℤ) : List ℕ :=
  (List.range (rows - 2 * (blocksize / 2) - 1).toNat).map
    fun i => (blocksize / 2).toNat + i

/-- The spec's eligible column indices:
`x ∈ [maxdisp + w, cols + mindisp − w − 2]` (inclusive),
`maxdisp = numdisp + mindisp`, enumerated in increasing order. -/
def specXs (cols : ℤ) (numdisp : ℕ) (mindisp blocksize : ℤ) : List ℤ :=
  (List.range (cols - 2 * (blocksize / 2) - 1 - numdisp).toNat).map
    fun (j : ℕ) => (numdisp : ℤ) + mindisp + blocksize / 2 + (j : ℤ)

/-- The spec's eligible coordinates in row-major order. -/
def specCoords (rows cols : ℤ) (numdisp : ℕ) (mindisp blocksize : ℤ) :
    List (ℕ × ℤ) :=
  (specYs rows blocksize).flatMap fun y =>
    (specXs cols numdisp mindisp blocksize).map fun x => (y, x)

/-- Spec §4.1 eligibility of a coordinate `(x, y)` (with respect to the left
image's dimensions): `y ∈ [w, rows − w − 2]` and
`x ∈ [maxdisp + w, cols + mindisp − w − 2]`. -/
def eligible (rows cols : ℤ) (numdisp : ℕ) (mindisp blocksize : ℤ)
    (y x : ℤ) : Prop :=
  blocksize / 2 ≤ y ∧ y ≤ rows - blocksize / 2 - 2 ∧
    (numdisp : ℤ) + mindisp + blocksize / 2 ≤ x ∧
    x ≤ cols + mindisp - blocksize / 2 - 2

instance (rows cols : ℤ) (numdisp : ℕ) (mindisp blocksize y x : ℤ) :
    Decidable (eligible rows cols numdisp mindisp blocksize y x) := by
  unfold eligible; infer_instance

/-! ### Concrete images used by witnesses and counterexamples -/

/-- A 1×8 grid: `blocksize = 3 ≥ rows = 1` makes the eligible range empty,
but `unsigned` wraparound lets the row loop run. -/
def img1x8 : Mat := ⟨1, 8, fun y x => (y + x + 1).toNat⟩

/-- A 1×9 grid used for the C1 counterexample (same degenerate shape,
different parameters). -/
def img1x9 : Mat := ⟨1, 9, fun y x => (y + x + 2).toNat⟩

/-- A 2×4 grid with distinct positive samples; with `blocksize = 1`,
`numdisp = 1`, `mindisp = 0` its eligible set is `{(1,0), (2,0)}`. -/
def img2x4 : Mat := ⟨2, 4, fun y x => (y + x + 1).toNat⟩

/-- A 2×3 grid: with `blocksize = 1`, `numdisp = 0`, `mindisp = 2` the
coordinate `(x, y) = (3, 0)` is spec-eligible but its block pokes out. -/
def img2x3 : Mat := ⟨2, 3, fun y x => (y + x + 1).toNat⟩

/-- A 2×40 right image paired with `img2x3`-style left images in the
counterexample for unequal dimensions is not needed; a 1×1 zero grid
serves the degenerate-score witness. -/
def img0 : Mat := ⟨1, 1, fun _ _ => 0⟩

/-- A two-entry score row with equal real values `2/√4 = 4/√16 = 1`. -/
def rowTie : List Score := [⟨2, 4⟩, ⟨4, 16⟩]

/-- The allocation-time contents used by the C5 witness. -/
def initW : ℤ → ℤ → ℕ := fun _ _ => 7

/-- The trace of the C5 witness run. -/
def trW : List ((ℤ × ℤ) × ℕ) := [(((0 : ℤ), (1 : ℤ)), 0), ((0, 2), 0)]

lemma nccVal_nonneg (s : Score) : 0 ≤ nccVal s := by
  unfold nccVal
  split
  · exact le_refl 0
  · exact div_nonneg (Nat.cast_nonneg _) (Real.sqrt_nonneg _)

lemma nccVal_pos_iff (s : Score) : 0 < nccVal s ↔ s.num ≠ 0 ∧ s.den ≠ 0 := by
  unfold nccVal
  split
  · simp_all
  · rename_i hden
    rw [div_pos_iff]
    constructor
    · rintro (⟨h1, _⟩ | ⟨_, h2⟩)
      · exact ⟨by exact_mod_cast h1.ne', hden⟩
      · exact absurd h2 (not_lt.mpr (Real.sqrt_nonneg _))
    · rintro ⟨h1, _⟩
      refine Or.inl ⟨by positivity, Real.sqrt_pos.mpr (by positivity)⟩

/-- Lemma that `scoreLt` is exactly comparison of the real score values: the decidable
order the engine uses agrees with the floating-point comparison `minMaxLoc`
performs (idealised over `ℝ`). -/
lemma scoreLt_iff_val (s t : Score) : scoreLt s t ↔ nccVal s < nccVal t := by
  unfold scoreLt
  by_cases htd : t.den = 0
  · have : nccVal t = 0 := by unfold nccVal; simp [htd]
    simp [htd, this, (nccVal_nonneg s).not_lt]
  by_cases htn : t.num = 0
  · have : nccVal t = 0 := by unfold nccVal; simp [htd, htn]
    simp [htd, htn, this, (nccVal_nonneg s).not_lt]
  have htpos : 0 < nccVal t := nccVal_pos_iff t |>.mpr ⟨htn, htd⟩
  by_cases hs : s.num = 0 ∨ s.den = 0
  · have : nccVal s = 0 := by
      unfold nccVal
      rcases hs with h | h <;> simp [h]
    simp only [this, htpos, iff_true]
    exact ⟨⟨htn, htd⟩, hs.imp id Or.inl⟩
  push_neg at hs
  obtain ⟨hsn, hsd⟩ := hs
  have hsd' : (0:ℝ) < Real.sqrt s.den := Real.sqrt_pos.mpr (by positivity)
  have htd' : (0:ℝ) < Real.sqrt t.den := Real.sqrt_pos.mpr (by positivity)
  have hval : nccVal s < nccVal t ↔
      (s.num : ℝ) * Real.sqrt t.den < (t.num : ℝ) * Real.sqrt s.den := by
    unfold nccVal
    rw [if_neg hsd, if_neg htd, div_lt_div_iff₀ hsd' htd']
  have hsq : (s.num : ℝ) * Real.sqrt t.den < (t.num : ℝ) * Real.sqrt s.den ↔
      (s.num : ℝ) ^ 2 * t.den < (t.num : ℝ) ^ 2 * s.den := by
    have e1 : ((s.num : ℝ) * Real.sqrt t.den) ^ 2 = (s.num : ℝ) ^ 2 * t.den := by
      rw [mul_pow, Real.sq_sqrt (by positivity)]
    have e2 : ((t.num : ℝ) * Real.sqrt s.den) ^ 2 = (t.num : ℝ) ^ 2 * s.den := by
      rw [mul_pow, Real.sq_sqrt (by positivity)]
    constructor
    · intro h
      calc (s.num : ℝ) ^ 2 * t.den = ((s.num : ℝ) * Real.sqrt t.den) ^ 2 := e1.symm
        _ < ((t.num : ℝ) * Real.sqrt s.den) ^ 2 := by
            apply pow_lt_pow_left₀ h (by positivity) two_ne_zero
        _ = (t.num : ℝ) ^ 2 * s.den := e2
    · intro h
      refine lt_of_pow_lt_pow_left₀ 2 (by positivity) ?_
      rw [e1, e2]; exact h
  rw [hval, hsq]
  constructor
  · rintro ⟨_, h | h | h⟩
    · exact absurd h hsn
    · exact absurd h hsd
    · exact_mod_cast h
  · intro h
    exact ⟨⟨htn, htd⟩, Or.inr (Or.inr (by exact_mod_cast h))⟩

/-- A score whose numerator–denominator pair satisfies the Cauchy–Schwarz
inequality has real value at most 1. -/
lemma nccVal_le_one {s : Score} (h : s.num ^ 2 ≤ s.den) : nccVal s ≤ 1 := by
  unfold nccVal
  split
  · exact zero_le_one
  · rename_i hden
    rw [div_le_one (Real.sqrt_pos.mpr (by positivity))]
    have h' : ((s.num : ℝ)) ^ 2 ≤ (s.den : ℝ) := by exact_mod_cast h
    calc (s.num : ℝ) = Real.sqrt ((s.num : ℝ) ^ 2) := by
          rw [Real.sqrt_sq (Nat.cast_nonneg _)]
      _ ≤ Real.sqrt s.den := Real.sqrt_le_sqrt h'

/-- The self-correlation score `(S, S·S)` of a non-zero window has real
value exactly 1. -/
lemma nccVal_self {S : ℕ} (h : S ≠ 0) : nccVal ⟨S, S * S⟩ = 1 := by
  unfold nccVal
  rw [if_neg (by simpa using h)]
  have : ((S * S : ℕ) : ℝ) = (S : ℝ) * (S : ℝ) := by push_cast; ring
  rw [this, Real.sqrt_mul_self (Nat.cast_nonneg _)]
  exact div_self (by exact_mod_cast h)

/-- Cauchy–Schwarz for every `windowScore`: the squared numerator is at most
the denominator, hence every `TM_CCORR_NORMED` value lies in `[0, 1]`. -/
lemma windowScore_sq_le (img templ : Mat) (dy dx : ℕ) :
    (windowScore img templ dy dx).num ^ 2 ≤ (windowScore img templ dy dx).den := by
  unfold windowScore
  simp only
  set h := templ.rows.toNat
  set wd := templ.cols.toNat
  have cs := Finset.sum_mul_sq_le_sq_mul_sq
    (Finset.range h ×ˢ Finset.range wd)
    (fun p => img.data (dy + p.1) (dx + p.2))
    (fun p => templ.data p.1 p.2)
  simpa [Finset.sum_product, pow_two, mul_comm] using cs

/-! ### Properties of the selector -/

lemma selectBest_singleton (s : Score) : selectBest [s] = 0 := rfl

lemma selectBest_cons (s a : Score) (rest : List Score) :
    selectBest (s :: a :: rest) =
      if scoreLt s ((a :: rest).getD (selectBest (a :: rest)) default)
      then selectBest (a :: rest) + 1 else 0 := rfl

lemma selectBest_lt_length : ∀ (l : List Score), l ≠ [] →
    selectBest l < l.length := by
  intro l
  induction l with
  | nil => intro h; exact absurd rfl h
  | cons s rest ih =>
    intro _
    cases rest with
    | nil => simp [selectBest_singleton]
    | cons a rest' =>
      rw [selectBest_cons]
      split
      · have := ih (by simp)
        simpa using Nat.succ_lt_succ this
      · simp

lemma selectBest_max : ∀ (l : List Score) (j : ℕ), j < l.length →
    nccVal (l.getD j default) ≤ nccVal (l.getD (selectBest l) default) := by
  intro l
  induction l with
  | nil => intro j hj; simp at hj
  | cons s rest ih =>
    intro j hj
    cases rest with
    | nil =>
      have : j = 0 := by simpa using Nat.lt_one_iff.mp (by simpa using hj)
      subst this
      simp [selectBest_singleton]
    | cons a rest' =>
      rw [selectBest_cons]
      split
      · rename_i hlt
        rw [scoreLt_iff_val] at hlt
        rw [List.getD_cons_succ]
        cases j with
        | zero => simpa using hlt.le
        | succ j' =>
          rw [List.getD_cons_succ]
          exact ih j' (by simpa using hj)
      · rename_i hnlt
        rw [scoreLt_iff_val, not_lt] at hnlt
        rw [List.getD_cons_zero]
        cases j with
        | zero => simp
        | succ j' =>
          rw [List.getD_cons_succ]
          exact (ih j' (by simpa using hj)).trans hnlt

lemma selectBest_earlier_lt : ∀ (l : List Score) (j : ℕ), j < selectBest l →
    nccVal (l.getD j default) < nccVal (l.getD (selectBest l) default) := by
  intro l
  induction l with
  | nil => intro j hj; simp [selectBest] at hj
  | cons s rest ih =>
    intro j hj
    cases rest with
    | nil => rw [selectBest_singleton] at hj; exact absurd hj (Nat.not_lt_zero j)
    | cons a rest' =>
      rw [selectBest_cons] at hj ⊢
      split
      · rename_i hlt
        have hlt' := hlt
        rw [scoreLt_iff_val] at hlt'
        rw [if_pos hlt] at hj
        rw [List.getD_cons_succ]
        cases j with
        | zero => simpa using hlt'
        | succ j' =>
          rw [List.getD_cons_succ]
          exact ih j' (Nat.lt_of_succ_lt_succ hj)
      · rename_i hnlt
        rw [if_neg hnlt] at hj
        exact absurd hj (Nat.not_lt_zero j)

/-! ### Loop-unrolling lemmas -/

lemma innerLoop_ok (f : ℤ → Except Unit ((ℤ × ℤ) × ℕ)) :
    ∀ (n : ℕ) (x : ℤ) (g : ℕ → (ℤ × ℤ) × ℕ),
      (∀ i, i < n → f (x + i) = .ok (g i)) →
      innerLoop f x n = .ok ((List.range n).map g) := by
  intro n
  induction n with
  | zero => intro x g _; simp [innerLoop]
  | succ n ih =>
    intro x g h
    have h0 : f x = .ok (g 0) := by simpa using h 0 (Nat.succ_pos n)
    have hrec : innerLoop f (x + 1) n = .ok ((List.range n).map fun i => g (i + 1)) := by
      apply ih
      intro i hi
      have := h (i + 1) (Nat.succ_lt_succ hi)
      rw [← this]
      congr 1
      push_cast
      ring
    rw [innerLoop, h0, hrec]
    rw [List.range_succ_eq_map]
    simp [Function.comp]

lemma outerLoop_ok (g : ℕ → Except Unit (List ((ℤ × ℤ) × ℕ))) :
    ∀ (n y : ℕ) (rows : ℕ → List ((ℤ × ℤ) × ℕ)),
      (∀ i, i < n → g (y + i) = .ok (rows i)) →
      outerLoop g y n = .ok ((List.range n).map rows).flatten := by
  intro n
  induction n with
  | zero => intro y rows _; simp [outerLoop]
  | succ n ih =>
    intro y rows h
    have h0 : g y = .ok (rows 0) := by simpa using h 0 (Nat.succ_pos n)
    have hrec : outerLoop g (y + 1) n = .ok ((List.range n).map fun i => rows (i + 1)).flatten := by
      apply ih
      intro i hi
      have := h (i + 1) (Nat.succ_lt_succ hi)
      rw [← this]
      congr 1
      omega
    rw [outerLoop, h0, hrec]
    rw [List.range_succ_eq_map]
    simp [Function.comp_def]

lemma innerLoop_ok_mem (f : ℤ → Except Unit ((ℤ × ℤ) × ℕ)) :
    ∀ (n : ℕ) (x : ℤ) (l : List ((ℤ × ℤ) × ℕ)),
      innerLoop f x n = .ok l → ∀ e ∈ l, ∃ i, i < n ∧ f (x + i) = .ok e := by
  intro n
  induction n with
  | zero =>
    intro x l h e he
    rw [innerLoop] at h
    cases h
    simp at he
  | succ n ih =>
    intro x l h e he
    rw [innerLoop] at h
    cases hf : f x with
    | error err => rw [hf] at h; cases h
    | ok r =>
      rw [hf] at h
      cases hrec : innerLoop f (x + 1) n with
      | error err => rw [hrec] at h; cases h
      | ok l' =>
        rw [hrec] at h
        cases h
        rcases List.mem_cons.mp he with rfl | he'
        · exact ⟨0, Nat.succ_pos n, by simpa using hf⟩
        · obtain ⟨i, hi, hfi⟩ := ih (x + 1) l' hrec e he'
          refine ⟨i + 1, Nat.succ_lt_succ hi, ?_⟩
          rw [← hfi]
          congr 1
          push_cast
          ring

lemma innerLoop_ok_all (f : ℤ → Except Unit ((ℤ × ℤ) × ℕ)) :
    ∀ (n : ℕ) (x : ℤ) (l : List ((ℤ × ℤ) × ℕ)),
      innerLoop f x n = .ok l → ∀ i, i < n → ∃ e, f (x + i) = .ok e := by
  intro n
  induction n with
  | zero => intro x l _ i hi; exact absurd hi (Nat.not_lt_zero i)
  | succ n ih =>
    intro x l h i hi
    rw [innerLoop] at h
    cases hf : f x with
    | error err => rw [hf] at h; cases h
    | ok r =>
      rw [hf] at h
      cases hrec : innerLoop f (x + 1) n with
      | error err => rw [hrec] at h; cases h
      | ok l' =>
        cases i with
        | zero => exact ⟨r, by simpa using hf⟩
        | succ i' =>
          obtain ⟨e, he⟩ := ih (x + 1) l' hrec i' (Nat.lt_of_succ_lt_succ hi)
          refine ⟨e, ?_⟩
          rw [← he]
          congr 1
          push_cast
          ring

lemma outerLoop_ok_mem (g : ℕ → Except Unit (List ((ℤ × ℤ) × ℕ))) :
    ∀ (n y : ℕ) (L : List ((ℤ × ℤ) × ℕ)),
      outerLoop g y n = .ok L → ∀ e ∈ L,
        ∃ i, i < n ∧ ∃ l, g (y + i) = .ok l ∧ e ∈ l := by
  intro n
  induction n with
  | zero =>
    intro y L h e he
    rw [outerLoop] at h
    cases h
    simp at he
  | succ n ih =>
    intro y L h e he
    rw [outerLoop] at h
    cases hg : g y with
    | error err => rw [hg] at h; cases h
    | ok l =>
      rw [hg] at h
      cases hrec : outerLoop g (y + 1) n with
      | error err => rw [hrec] at h; cases h
      | ok L' =>
        rw [hrec] at h
        cases h
        rcases List.mem_append.mp he with he' | he'
        · exact ⟨0, Nat.succ_pos n, l, by simpa using hg, he'⟩
        · obtain ⟨i, hi, l', hgl, hel⟩ := ih (y + 1) L' hrec e he'
          refine ⟨i + 1, Nat.succ_lt_succ hi, l', ?_, hel⟩
          rw [← hgl]
          congr 1
          omega

/-! ### Wraparound elimination under realistic magnitudes -/

lemma toUInt32_eq {n : ℤ} (h1 : 0 ≤ n) (h2 : n < 2 ^ 32) :
    toUInt32 n = n.toNat := by
  unfold toUInt32
  rw [show (2:ℤ) ^ 32 = 4294967296 from by norm_num]
  omega

lemma toInt32_eq {n : ℤ} (h1 : -2 ^ 31 ≤ n) (h2 : n < 2 ^ 31) :
    toInt32 n = n := by
  unfold toInt32
  rw [show (2:ℤ) ^ 32 = 4294967296 from by norm_num,
    show (2:ℤ) ^ 31 = 2147483648 from by norm_num]
  split <;> omega

/-! ### Geometry of the two ROI extractions -/

lemma submat_fit {m : Mat} {r : Rect} {F : Mat} (h : submat m r = some F) :
    0 ≤ r.x ∧ 0 ≤ r.width ∧ r.x + r.width ≤ m.cols ∧
      0 ≤ r.y ∧ 0 ≤ r.height ∧ r.y + r.height ≤ m.rows := by
  unfold submat at h
  split at h
  · assumption
  · cases h

lemma submat_eq {m : Mat} {r : Rect}
    (h : 0 ≤ r.x ∧ 0 ≤ r.width ∧ r.x + r.width ≤ m.cols ∧
      0 ≤ r.y ∧ 0 ≤ r.height ∧ r.y + r.height ≤ m.rows) :
    submat m r = some ⟨r.height, r.width, fun i j => m.data (r.y + i) (r.x + j)⟩ := by
  unfold submat
  rw [if_pos h]

/-- With a non-empty disparity range the two corner points of the strip are
already ordered, so the normalising `cv::Rect` constructor yields origin
`(x − w − maxdisp, y − w)` and size `(2w+1+maxdisp−mindisp) × (2w+1)`. -/
lemma sliceRect_eq {x : ℤ} {y w : ℕ} {mindisp maxdisp : ℤ}
    (h : mindisp ≤ maxdisp + 2 * w + 1) :
    sliceRect x y w mindisp maxdisp =
      ⟨x - w - maxdisp, (y : ℤ) - w, 2 * w + 1 + maxdisp - mindisp, 2 * w + 1⟩ := by
  unfold sliceRect rectOfPoints
  have h1 : x - (w : ℤ) - maxdisp ≤ x + w + 1 - mindisp := by omega
  have h2 : (y : ℤ) - w ≤ (y : ℤ) + w + 1 := by omega
  rw [Rect.mk.injEq]
  rw [min_eq_left h1, max_eq_right h1, min_eq_left h2, max_eq_right h2]
  refine ⟨rfl, rfl, by ring, by ring⟩

lemma matchTemplate_single {img templ : Mat} (h : img.rows = templ.rows) :
    matchTemplate img templ =
      [(List.range (img.cols - templ.cols + 1).toNat).map
        fun dx => windowScore img templ 0 dx] := by
  unfold matchTemplate
  rw [h, sub_self, zero_add]
  rfl

lemma minMaxLoc_single (row : List Score) (h : row ≠ []) :
    minMaxLoc [row] = ((selectBest row : ℤ), 0) := by
  have hlt := selectBest_lt_length row h
  simp [minMaxLoc, Nat.mod_eq_of_lt hlt, Nat.div_eq_of_lt hlt]

/-- Dissection of a successful loop-body iteration: the write happens at
`(y, x)` and both ROI extractions succeeded. -/
lemma body_ok_inv {limg rimg : Mat} {mindisp blocksize maxdisp : ℤ}
    {w y : ℕ} {x : ℤ} {e : (ℤ × ℤ) × ℕ}
    (h : body limg rimg mindisp blocksize maxdisp w y x = .ok e) :
    e.1 = ((y : ℤ), x) ∧
      (∃ F, submat limg (blockRect x y w blocksize) = some F) ∧
      (∃ I, submat rimg (sliceRect x y w mindisp maxdisp) = some I) := by
  unfold body at h
  cases hb : submat limg (blockRect x y w blocksize) with
  | none => rw [hb] at h; cases h
  | some F =>
    rw [hb] at h
    cases hs : submat rimg (sliceRect x y w mindisp maxdisp) with
    | none => rw [hs] at h; cases h
    | some I =>
      rw [hs] at h
      cases h
      exact ⟨rfl, ⟨F, rfl⟩, ⟨I, rfl⟩⟩

/-- Full evaluation of a successful loop-body iteration with an odd block
size: the score row is the flattened one-row `matchTemplate` result, its
length is `numdisp + 1`, and the written byte is the selected index mod
256. -/
lemma body_eval {limg rimg : Mat} {mindisp blocksize maxdisp : ℤ}
    {w y : ℕ} {x : ℤ}
    (hbs : blocksize = 2 * w + 1)
    (hmd : mindisp ≤ maxdisp)
    (hbl : 0 ≤ x - w ∧ x - w + blocksize ≤ limg.cols ∧
      0 ≤ (y : ℤ) - w ∧ (y : ℤ) - w + blocksize ≤ limg.rows)
    (hsl : 0 ≤ x - w - maxdisp ∧ x + w + 1 - mindisp ≤ rimg.cols ∧
      (y : ℤ) + w + 1 ≤ rimg.rows) :
    ∃ row, scoreRowAt limg rimg mindisp blocksize maxdisp w y x = some row ∧
      row.length = (maxdisp - mindisp + 1).toNat ∧
      row = (List.range (maxdisp - mindisp + 1).toNat).map
        (fun dx => windowScore
          ⟨2 * w + 1, 2 * w + 1 + maxdisp - mindisp,
            fun i j => rimg.data (((y : ℤ) - w) + i) ((x - w - maxdisp) + j)⟩
          ⟨blocksize, blocksize,
            fun i j => limg.data (((y : ℤ) - w) + i) ((x - w) + j)⟩
          0 dx) ∧
      body limg rimg mindisp blocksize maxdisp w y x =
        .ok (((y : ℤ), x), selectBest row % 256) := by
  have hslice := @sliceRect_eq x y w mindisp maxdisp (by omega)
  have hbfit : submat limg (blockRect x y w blocksize) =
      some ⟨blocksize, blocksize,
        fun i j => limg.data (((y : ℤ) - w) + i) ((x - w) + j)⟩ := by
    rw [submat_eq (by unfold blockRect; simp only; omega)]
    rfl
  have hsfit : submat rimg (sliceRect x y w mindisp maxdisp) =
      some ⟨2 * w + 1, 2 * w + 1 + maxdisp - mindisp,
        fun i j => rimg.data (((y : ℤ) - w) + i) ((x - w - maxdisp) + j)⟩ := by
    rw [hslice, submat_eq (by simp only; omega)]
  set I : Mat := ⟨2 * w + 1, 2 * w + 1 + maxdisp - mindisp,
    fun i j => rimg.data (((y : ℤ) - w) + i) ((x - w - maxdisp) + j)⟩ with hI
  set F : Mat := ⟨blocksize, blocksize,
    fun i j => limg.data (((y : ℤ) - w) + i) ((x - w) + j)⟩ with hF
  have hIr : I.rows = F.rows := by rw [hI, hF]; simp [hbs]
  have hlen : (I.cols - F.cols + 1).toNat = (maxdisp - mindisp + 1).toNat := by
    rw [hI, hF]
    simp only
    omega
  have hmt : matchTemplate I F =
      [(List.range (maxdisp - mindisp + 1).toNat).map
        fun dx => windowScore I F 0 dx] := by
    rw [matchTemplate_single hIr, hlen]
  set row : List Score := (List.range (maxdisp - mindisp + 1).toNat).map
    (fun dx => windowScore I F 0 dx) with hrow
  have hrowlen : row.length = (maxdisp - mindisp + 1).toNat := by
    simp [hrow]
  have hrowne : row ≠ [] := by
    have h1 : 0 < (maxdisp - mindisp + 1).toNat := by omega
    intro hcon
    rw [← List.length_eq_zero] at hcon  -- hcon : row.length ... adjust below
    omega
  have hflat : (matchTemplate I F).flatten = row := by
    rw [hmt]
    simp [hrow]
  refine ⟨row, ?_, hrowlen, rfl, ?_⟩
  · unfold scoreRowAt
    rw [hbfit, hsfit]
    simp [hflat]
  · unfold body
    rw [hbfit, hsfit]
    simp only
    rw [hmt, minMaxLoc_single row hrowne]
    simp only
    have : ((selectBest row : ℤ)) % (256 : ℤ) = ((selectBest row % 256 : ℕ) : ℤ) := by
      push_cast
      ring
    rw [this, Int.toNat_natCast]

/-- C1 (amended): for equal-sized images of realistic magnitudes with odd
`blocksize`, provided `rows > w`, `cols + mindisp > w`,
`numdisp + mindisp ≥ 0` and `mindisp ≤ 1`, the engine visits exactly the
spec-eligible coordinates `y ∈ [w, rows−w−2]`, `x ∈ [maxdisp+w,
cols+mindisp−w−2]` in row-major order and writes at each the index the
selector picks from that coordinate's score row, reduced mod 256 (the
`uchar` store). -/
theorem C1_engine_visits_and_writes (limg rimg : Mat) (numdisp : ℕ) (mindisp blocksize : ℤ)
    (hdimr : rimg.rows = limg.rows) (hdimc : rimg.cols = limg.cols)
    (hrows31 : limg.rows < 2 ^ 31) (hcols31 : limg.cols < 2 ^ 31)
    (hbs0 : 0 < blocksize) (hbs30 : blocksize < 2 ^ 30)
    (hodd : blocksize % 2 = 1)
    (hnd : (numdisp : ℤ) < 2 ^ 30)
    (hmdlow : -2 ^ 30 < mindisp) (hmdhigh : mindisp ≤ 1)
    (hmaxd0 : 0 ≤ (numdisp : ℤ) + mindisp)
    (hwrows : blocksize / 2 < limg.rows)
    (hwcols : blocksize / 2 < limg.cols + mindisp) :
    compute_dispmap_trace limg rimg numdisp mindisp blocksize =
      .ok ((specCoords limg.rows limg.cols numdisp mindisp blocksize).map
        (fun p => (((p.1 : ℤ), p.2),
          selectBest ((scoreRowAt limg rimg mindisp blocksize
            ((numdisp : ℤ) + mindisp) (blocksize / 2).toNat p.1 p.2).getD [])
            % 256))) := by
  have hw0 : 0 ≤ blocksize / 2 := by omega
  have hw30 : blocksize / 2 < 2 ^ 29 := by omega
  have hbsw : blocksize = 2 * (blocksize / 2) + 1 := by omega
  set W : ℕ := (blocksize / 2).toNat with hW
  have hWz : (W : ℤ) = blocksize / 2 := Int.toNat_of_nonneg hw0
  have e1 : toUInt32 (blocksize.tdiv 2) = W := by
    rw [Int.tdiv_eq_ediv (by omega) (by norm_num)]
    rw [toUInt32_eq hw0 (by omega)]
  have e2 : toUInt32 (limg.rows - (W : ℤ) - 1) = (limg.rows - blocksize / 2 - 1).toNat := by
    rw [hWz, toUInt32_eq (by omega) (by omega)]
  have e3 : toInt32 ((numdisp : ℤ) + mindisp) = (numdisp : ℤ) + mindisp :=
    toInt32_eq (by omega) (by omega)
  have e4 : toInt32 ((numdisp : ℤ) + mindisp + (W : ℤ)) =
      (numdisp : ℤ) + mindisp + (W : ℤ) := by
    rw [hWz]
    exact toInt32_eq (by omega) (by omega)
  have e5 : toUInt32 ((numdisp : ℤ) + mindisp + (W : ℤ)) =
      ((numdisp : ℤ) + mindisp + blocksize / 2).toNat := by
    rw [hWz, toUInt32_eq (by omega) (by omega)]
  have e6 : toUInt32 (limg.cols + mindisp - (W : ℤ) - 1) =
      (limg.cols + mindisp - blocksize / 2 - 1).toNat := by
    rw [hWz, toUInt32_eq (by omega) (by omega)]
  set ny : ℕ := (limg.rows - blocksize / 2 - 1).toNat - W with hny
  set nx : ℕ := (limg.cols + mindisp - blocksize / 2 - 1).toNat -
    ((numdisp : ℤ) + mindisp + blocksize / 2).toNat with hnx
  set x0 : ℤ := (numdisp : ℤ) + mindisp + (W : ℤ) with hx0
  have htr : compute_dispmap_trace limg rimg numdisp mindisp blocksize =
      outerLoop (fun y => innerLoop
        (body limg rimg mindisp blocksize ((numdisp : ℤ) + mindisp) W y) x0 nx)
        W ny := by
    simp only [compute_dispmap_trace]
    rw [e1, e3, e4, e5, e2, e6]
  rw [htr]
  set maxd : ℤ := (numdisp : ℤ) + mindisp with hmaxd
  -- evaluate every loop-body iteration via `body_eval`
  have hbody : ∀ i j : ℕ, i < ny → j < nx →
      body limg rimg mindisp blocksize maxd W (W + i) (x0 + j) =
        .ok ((((W + i : ℕ) : ℤ), x0 + j),
          selectBest ((scoreRowAt limg rimg mindisp blocksize maxd
            W (W + i) (x0 + j)).getD []) % 256) := by
    intro i j hi hj
    have hyel : ((W + i : ℕ) : ℤ) ≤ limg.rows - blocksize / 2 - 2 := by
      push_cast
      omega
    have hxel : x0 + (j : ℤ) ≤ limg.cols + mindisp - blocksize / 2 - 2 := by
      omega
    have hbs' : blocksize = 2 * (W : ℤ) + 1 := by omega
    have hmd' : mindisp ≤ maxd := by omega
    have hbl : 0 ≤ (x0 + (j : ℤ)) - W ∧
        (x0 + (j : ℤ)) - W + blocksize ≤ limg.cols ∧
        0 ≤ (((W + i : ℕ)) : ℤ) - W ∧
        (((W + i : ℕ)) : ℤ) - W + blocksize ≤ limg.rows := by
      push_cast at hyel ⊢
      omega
    have hsl : 0 ≤ (x0 + (j : ℤ)) - W - maxd ∧
        (x0 + (j : ℤ)) + W + 1 - mindisp ≤ rimg.cols ∧
        (((W + i : ℕ)) : ℤ) + W + 1 ≤ rimg.rows := by
      rw [hdimc, hdimr]
      push_cast at hyel ⊢
      omega
    obtain ⟨row, hrow, hrlen, hrdef, hbd⟩ :=
      @body_eval limg rimg mindisp blocksize maxd W (W + i) (x0 + j)
        hbs' hmd' hbl hsl
    rw [hbd, hrow]
    rfl
  -- run the two loops
  have hinner : ∀ i : ℕ, i < ny →
      innerLoop (body limg rimg mindisp blocksize maxd W (W + i)) x0 nx =
        .ok ((List.range nx).map fun (j : ℕ) =>
          ((((W + i : ℕ) : ℤ), x0 + j),
            selectBest ((scoreRowAt limg rimg mindisp blocksize maxd
              W (W + i) (x0 + j)).getD []) % 256)) := by
    intro i hi
    exact innerLoop_ok _ nx x0 _ (fun j hj => hbody i j hi hj)
  have houter := outerLoop_ok
    (fun y => innerLoop (body limg rimg mindisp blocksize maxd W y) x0 nx)
    ny W
    (fun (i : ℕ) => (List.range nx).map fun (j : ℕ) =>
      ((((W + i : ℕ) : ℤ), x0 + j),
        selectBest ((scoreRowAt limg rimg mindisp blocksize maxd
          W (W + i) (x0 + j)).getD []) % 256))
    (fun i hi => hinner i hi)
  rw [houter]
  -- identify the produced list with the mapped spec enumeration
  congr 1
  have hnyS : (limg.rows - 2 * (blocksize / 2) - 1).toNat = ny := by omega
  have hnxS : (limg.cols - 2 * (blocksize / 2) - 1 - numdisp).toNat = nx := by
    omega
  unfold specCoords specYs specXs
  rw [hnyS, hnxS]
  rw [List.map_flatMap, List.flatMap_map]
  rw [show ((List.range ny).map fun (i : ℕ) =>
        (List.range nx).map fun (j : ℕ) =>
          ((((W + i : ℕ) : ℤ), x0 + j),
            selectBest ((scoreRowAt limg rimg mindisp blocksize maxd
              W (W + i) (x0 + j)).getD []) % 256)).flatten =
      (List.range ny).flatMap (fun (i : ℕ) =>
        (List.range nx).map fun (j : ℕ) =>
          ((((W + i : ℕ) : ℤ), x0 + j),
            selectBest ((scoreRowAt limg rimg mindisp blocksize maxd
              W (W + i) (x0 + j)).getD []) % 256)) from rfl]
  congr 1
  funext i
  simp only [List.map_map]
  refine List.map_congr_left fun j hj => ?_
  simp only [Function.comp_apply]
  have hx : x0 + (j : ℤ) = (numdisp : ℤ) + mindisp + blocksize / 2 + (j : ℤ) := by
    rw [hx0, hmaxd, hWz]
  rw [hx, hW]

/-! ### Frame: writes land only on spec-eligible coordinates -/

/-- A cell no write targets keeps its allocation-time contents. -/
lemma applyWrites_not_written (l : List ((ℤ × ℤ) × ℕ)) :
    ∀ (init : ℤ → ℤ → ℕ) (y x : ℤ), (∀ e ∈ l, e.1 ≠ (y, x)) →
      applyWrites init l y x = init y x := by
  induction l with
  | nil => intro init y x _; rfl
  | cons e t ih =>
    intro init y x h
    have he : e.1 ≠ (y, x) := h e (List.mem_cons_self e t)
    have ht : ∀ e' ∈ t, e'.1 ≠ (y, x) := fun e' he' => h e' (List.mem_cons_of_mem e he')
    unfold applyWrites at ih ⊢
    rw [List.foldl_cons]
    rw [ih _ y x ht]
    have : ¬ (y = e.1.1 ∧ x = e.1.2) := by
      intro ⟨h1, h2⟩
      exact he (Prod.ext h1.symm h2.symm)
    simp [this]

/-- If the block rectangle pokes out of the left image on the right, the
body throws. -/
lemma body_error_of_block {limg rimg : Mat} {mindisp blocksize maxdisp : ℤ}
    {w y : ℕ} {x : ℤ} (h : limg.cols < x - w + blocksize) :
    body limg rimg mindisp blocksize maxdisp w y x = .error () := by
  unfold body
  have hnone : submat limg (blockRect x y w blocksize) = none := by
    unfold submat blockRect
    rw [if_neg]
    simp only
    omega
  rw [hnone]

/-- Every write an error-free run performs targets a spec-eligible
coordinate (for arbitrary right image and any `mindisp`, `numdisp`). -/
lemma writes_eligible (limg rimg : Mat) (numdisp : ℕ) (mindisp blocksize : ℤ)
    (tr : List ((ℤ × ℤ) × ℕ))
    (hrows0 : 0 ≤ limg.rows) (hrows31 : limg.rows < 2 ^ 31)
    (hcols0 : 0 ≤ limg.cols) (hcols31 : limg.cols < 2 ^ 31)
    (hbs0 : 0 < blocksize) (hbs30 : blocksize < 2 ^ 29)
    (hodd : blocksize % 2 = 1)
    (hnd : (numdisp : ℤ) < 2 ^ 29)
    (hmdlow : -2 ^ 29 < mindisp) (hmdhigh : mindisp < 2 ^ 29)
    (htr : compute_dispmap_trace limg rimg numdisp mindisp blocksize = .ok tr) :
    ∀ e ∈ tr, eligible limg.rows limg.cols numdisp mindisp blocksize
      e.1.1 e.1.2 := by
  intro e he
  have hw0 : 0 ≤ blocksize / 2 := by omega
  have hw30 : blocksize / 2 < 2 ^ 28 := by omega
  have hbsw : blocksize = 2 * (blocksize / 2) + 1 := by omega
  set W : ℕ := (blocksize / 2).toNat with hW
  have hWz : (W : ℤ) = blocksize / 2 := Int.toNat_of_nonneg hw0
  have e1 : toUInt32 (blocksize.tdiv 2) = W := by
    rw [Int.tdiv_eq_ediv (by omega) (by norm_num)]
    rw [toUInt32_eq hw0 (by omega)]
  have e3 : toInt32 ((numdisp : ℤ) + mindisp) = (numdisp : ℤ) + mindisp :=
    toInt32_eq (by omega) (by omega)
  have e4 : toInt32 ((numdisp : ℤ) + mindisp + (W : ℤ)) =
      (numdisp : ℤ) + mindisp + (W : ℤ) := by
    rw [hWz]
    exact toInt32_eq (by omega) (by omega)
  set maxd : ℤ := (numdisp : ℤ) + mindisp with hmaxd
  set x0 : ℤ := maxd + (W : ℤ) with hx0
  set ny : ℕ := toUInt32 (limg.rows - (W : ℤ) - 1) - W with hny
  set nx : ℕ := toUInt32 (limg.cols + mindisp - (W : ℤ) - 1) - toUInt32 x0
    with hnx
  have hr : (toUInt32 (limg.rows - (W : ℤ) - 1) : ℤ) =
      (limg.rows - (W : ℤ) - 1) % 4294967296 := by
    unfold toUInt32
    rw [show ((2:ℤ) ^ 32) = 4294967296 from by norm_num]
    exact Int.toNat_of_nonneg (Int.emod_nonneg _ (by norm_num))
  have hp : (toUInt32 (limg.cols + mindisp - (W : ℤ) - 1) : ℤ) =
      (limg.cols + mindisp - (W : ℤ) - 1) % 4294967296 := by
    unfold toUInt32
    rw [show ((2:ℤ) ^ 32) = 4294967296 from by norm_num]
    exact Int.toNat_of_nonneg (Int.emod_nonneg _ (by norm_num))
  have hq : (toUInt32 x0 : ℤ) = x0 % 4294967296 := by
    unfold toUInt32
    rw [show ((2:ℤ) ^ 32) = 4294967296 from by norm_num]
    exact Int.toNat_of_nonneg (Int.emod_nonneg _ (by norm_num))
  have htr' : outerLoop (fun y => innerLoop
      (body limg rimg mindisp blocksize maxd W y) x0 nx) W ny = .ok tr := by
    rw [← htr]
    symm
    simp only [compute_dispmap_trace]
    rw [e1, e3, e4]
  obtain ⟨i, hi, l, hl, hel⟩ := outerLoop_ok_mem _ ny W tr htr' e he
  obtain ⟨j, hj, hbj⟩ := innerLoop_ok_mem _ nx x0 l hl e hel
  obtain ⟨hcoord, ⟨F, hF⟩, ⟨I, hI⟩⟩ := body_ok_inv hbj
  have hbfit := submat_fit hF
  have hslice : sliceRect (x0 + j) (W + i) W mindisp maxd =
      ⟨x0 + j - W - maxd, ((W + i : ℕ) : ℤ) - W,
        2 * W + 1 + maxd - mindisp, 2 * W + 1⟩ :=
    @sliceRect_eq (x0 + j) (W + i) W mindisp maxd (by omega)
  rw [hslice] at hI
  have hsfit := submat_fit hI
  simp only [blockRect] at hbfit
  simp only at hsfit
  rw [hcoord]
  unfold eligible
  -- reduce the `unsigned` loop bounds to arithmetic facts
  have hyb : ((W : ℤ) + i) < (limg.rows - (W : ℤ) - 1) % 4294967296 := by
    omega
  have hxb : ((x0 % 4294967296) + j) <
      (limg.cols + mindisp - (W : ℤ) - 1) % 4294967296 := by
    omega
  have hy1 : (blocksize / 2 : ℤ) ≤ ((W + i : ℕ) : ℤ) := by
    push_cast
    omega
  have hy2 : ((W + i : ℕ) : ℤ) ≤ limg.rows - blocksize / 2 - 2 := by
    push_cast
    push_cast at hbfit
    omega
  have hx1 : maxd + blocksize / 2 ≤ x0 + j := by omega
  have hx2 : x0 + (j : ℤ) ≤ limg.cols + mindisp - blocksize / 2 - 2 := by
    push_cast at hbfit
    -- the only hard case is a wrapped inner bound with non-negative start:
    -- there the loop would eventually throw, contradicting the `ok` trace
    by_cases hB : 0 ≤ limg.cols + mindisp - (W : ℤ) - 1
    · omega
    · by_cases hx0n : x0 < 0
      · omega
      · exfalso
        set js : ℕ := (limg.cols - x0).toNat with hjs'
        have hjs : js < nx := by omega
        obtain ⟨e', he'⟩ := innerLoop_ok_all _ nx x0 l hl js hjs
        rw [body_error_of_block (by omega)] at he'
        cases he'
  exact ⟨hy1, hy2, hx1, hx2⟩

/-! ### C2 -/

/-- C2: at `rows = 1 < blocksize = 3` (`numdisp = 1`, `mindisp = 0`) the
spec-eligible range is empty, yet the engine does not return an empty
result: the `unsigned` comparison `y < limg.rows - w - 1` wraps
(`1 − 1 − 1 ≡ 2^32 − 1`), the loop body runs at `y = 1`, the block
extraction is out of bounds, and the run aborts with the propagated
exception — contradicting the spec's "must not raise an error". -/
theorem C2_empty_range_raises :
    specCoords img1x8.rows img1x8.cols 1 0 3 = [] ∧
    compute_dispmap_trace img1x8 img1x8 1 0 3 = .error () :=
  ⟨rfl, rfl⟩

/-! ### C4 -/

/-- C4: on every non-empty score row the selector returns an index of the
row; the real value there is maximal; and any index attaining the same
value is not smaller — i.e. the first maximum in scan order, which is
deterministic because `selectBest` is a pure function of the row. -/
theorem C4_selectBest_first_max (l : List Score) (h : l ≠ []) :
    selectBest l < l.length ∧
    (∀ j, j < l.length →
      nccVal (l.getD j default) ≤ nccVal (l.getD (selectBest l) default)) ∧
    (∀ j, j < l.length →
      nccVal (l.getD j default) = nccVal (l.getD (selectBest l) default) →
      selectBest l ≤ j) := by
  refine ⟨selectBest_lt_length l h, selectBest_max l, ?_⟩
  intro j hj heq
  by_contra hlt
  push_neg at hlt
  exact (selectBest_earlier_lt l j hlt).ne heq

/-- Witness for C4 at the crafted tie row `rowTie` (both entries have real
score 1). -/
theorem C4_selectBest_first_max_witness :
    rowTie ≠ [] ∧
    (selectBest rowTie < rowTie.length ∧
    (∀ j, j < rowTie.length →
      nccVal (rowTie.getD j default) ≤
        nccVal (rowTie.getD (selectBest rowTie) default)) ∧
    (∀ j, j < rowTie.length →
      nccVal (rowTie.getD j default) =
        nccVal (rowTie.getD (selectBest rowTie) default) →
      selectBest rowTie ≤ j)) :=
  ⟨by decide, C4_selectBest_first_max rowTie (by decide)⟩

/-! ### C6 -/

/-- C6: at any coordinate, the strip rectangle the engine builds has origin
`(x − w − maxdisp, y − w)` and size `(blocksize + numdisp) × blocksize`,
where `blocksize = 2w + 1` and `maxdisp = numdisp + mindisp`. -/
theorem C6_strip_geometry (x : ℤ) (y w : ℕ) (numdisp : ℕ)
    (mindisp blocksize : ℤ) (hbs : blocksize = 2 * w + 1) :
    sliceRect x y w mindisp ((numdisp : ℤ) + mindisp) =
      ⟨x - w - ((numdisp : ℤ) + mindisp), (y : ℤ) - w,
        blocksize + numdisp, blocksize⟩ := by
  rw [@sliceRect_eq x y w mindisp ((numdisp : ℤ) + mindisp) (by omega)]
  rw [Rect.mk.injEq]
  refine ⟨rfl, rfl, by omega, by omega⟩

/-- Witness for C6 at `x = 5, y = 3, w = 1, numdisp = 2, mindisp = 0,
blocksize = 3`. -/
theorem C6_strip_geometry_witness :
    (3 : ℤ) = 2 * (1 : ℕ) + 1 ∧
    sliceRect 5 3 1 0 (((2 : ℕ) : ℤ) + 0) =
      ⟨5 - (1 : ℕ) - (((2 : ℕ) : ℤ) + 0), ((3 : ℕ) : ℤ) - (1 : ℕ),
        3 + (2 : ℕ), 3⟩ :=
  ⟨by decide, C6_strip_geometry 5 3 1 2 0 3 (by decide)⟩

/-! ### C9 -/

/-- C9: if either the template window (the block) or the image window under
it is uniformly zero, the `TM_CCORR_NORMED` score is exactly the real
number 0 — the zero denominator is guarded, so no NaN/∞ arises in the
idealised real-valued model. -/
theorem C9_zero_window_score (img templ : Mat) (dy dx : ℕ)
    (h : (∀ i j : ℕ, i < templ.rows.toNat → j < templ.cols.toNat →
            templ.data i j = 0) ∨
         (∀ i j : ℕ, i < templ.rows.toNat → j < templ.cols.toNat →
            img.data (dy + i) (dx + j) = 0)) :
    nccVal (windowScore img templ dy dx) = 0 := by
  have hden : (windowScore img templ dy dx).den = 0 := by
    unfold windowScore
    simp only
    rcases h with h | h
    · refine Nat.mul_eq_zero.mpr (Or.inr ?_)
      refine Finset.sum_eq_zero fun i hi => Finset.sum_eq_zero fun j hj => ?_
      rw [h i j (Finset.mem_range.mp hi) (Finset.mem_range.mp hj)]
      ring
    · refine Nat.mul_eq_zero.mpr (Or.inl ?_)
      refine Finset.sum_eq_zero fun i hi => Finset.sum_eq_zero fun j hj => ?_
      rw [h i j (Finset.mem_range.mp hi) (Finset.mem_range.mp hj)]
      ring
  unfold nccVal
  rw [if_pos hden]

/-- Witness for C9: the all-zero 1×1 template against itself. -/
theorem C9_zero_window_score_witness :
    ((∀ i j : ℕ, i < img0.rows.toNat → j < img0.cols.toNat →
        img0.data i j = 0) ∨
     (∀ i j : ℕ, i < img0.rows.toNat → j < img0.cols.toNat →
        img0.data (0 + i) (0 + j) = 0)) ∧
    nccVal (windowScore img0 img0 0 0) = 0 :=
  ⟨Or.inl fun _ _ _ _ => rfl,
    C9_zero_window_score img0 img0 0 0 (Or.inl fun _ _ _ _ => rfl)⟩

/-! ### C3 -/

lemma getD_range_map {α : Type} [Inhabited α] (g : ℕ → α) {n k : ℕ}
    (hk : k < n) : ((List.range n).map g).getD k default = g k := by
  rw [List.getD_eq_getElem?_getD, List.getElem?_map, List.getElem?_range hk]
  rfl

/-- C3: at any coordinate where both extractions succeed (in particular at
every eligible coordinate of the engine), the scorer produces exactly
`numdisp + 1` scores, and the `k`-th equals the NCC between the block
(centred at `(x, y)` in the left image) and the `blocksize × blocksize`
sub-window of the strip starting `k` samples from the strip's left edge
`x − w − maxdisp` in the right image. -/
theorem C3_score_row (limg rimg : Mat) (mindisp blocksize maxdisp : ℤ)
    (w y : ℕ) (x : ℤ)
    (hbs : blocksize = 2 * w + 1)
    (hmd : mindisp ≤ maxdisp)
    (hbl : 0 ≤ x - w ∧ x - w + blocksize ≤ limg.cols ∧
      0 ≤ (y : ℤ) - w ∧ (y : ℤ) - w + blocksize ≤ limg.rows)
    (hsl : 0 ≤ x - w - maxdisp ∧ x + w + 1 - mindisp ≤ rimg.cols ∧
      (y : ℤ) + w + 1 ≤ rimg.rows) :
    ∃ row, scoreRowAt limg rimg mindisp blocksize maxdisp w y x = some row ∧
      row.length = (maxdisp - mindisp + 1).toNat ∧
      ∀ k : ℕ, k < row.length →
        nccVal (row.getD k default) =
          ncc (fun i j => rimg.data ((y : ℤ) - w + i) (x - w - maxdisp + (k + j)))
            (fun i j => limg.data ((y : ℤ) - w + i) (x - w + j))
            blocksize.toNat blocksize.toNat := by
  obtain ⟨row, hrow, hrlen, hrdef, _⟩ := body_eval hbs hmd hbl hsl
  refine ⟨row, hrow, hrlen, ?_⟩
  intro k hk
  rw [hrlen] at hk
  rw [hrdef, getD_range_map _ hk]
  unfold windowScore ncc
  simp only
  congr 2
  · refine Finset.sum_congr rfl fun i _ => Finset.sum_congr rfl fun j _ => ?_
    push_cast
    ring_nf
  · refine congrArg₂ (· * ·) ?_ ?_
    · refine Finset.sum_congr rfl fun i _ => Finset.sum_congr rfl fun j _ => ?_
      push_cast
      ring_nf
    · refine Finset.sum_congr rfl fun i _ => Finset.sum_congr rfl fun j _ => ?_
      ring_nf

/-- Witness for C3 at `img2x4`, `blocksize = 1`, `numdisp = 1`,
`mindisp = 0`, coordinate `(x, y) = (1, 0)`. -/
theorem C3_score_row_witness :
    ((1 : ℤ) = 2 * ((0 : ℕ) : ℤ) + 1) ∧ ((0 : ℤ) ≤ 1) ∧
    (0 ≤ (1 : ℤ) - ((0 : ℕ) : ℤ) ∧ (1 : ℤ) - ((0 : ℕ) : ℤ) + 1 ≤ img2x4.cols ∧
      0 ≤ ((0 : ℕ) : ℤ) - ((0 : ℕ) : ℤ) ∧
      ((0 : ℕ) : ℤ) - ((0 : ℕ) : ℤ) + 1 ≤ img2x4.rows) ∧
    (0 ≤ (1 : ℤ) - ((0 : ℕ) : ℤ) - 1 ∧
      (1 : ℤ) + ((0 : ℕ) : ℤ) + 1 - 0 ≤ img2x4.cols ∧
      ((0 : ℕ) : ℤ) + ((0 : ℕ) : ℤ) + 1 ≤ img2x4.rows) ∧
    (∃ row, scoreRowAt img2x4 img2x4 0 1 1 0 0 1 = some row ∧
      row.length = ((1 : ℤ) - 0 + 1).toNat ∧
      ∀ k : ℕ, k < row.length →
        nccVal (row.getD k default) =
          ncc (fun i j => img2x4.data (((0 : ℕ) : ℤ) - ((0 : ℕ) : ℤ) + i)
              ((1 : ℤ) - ((0 : ℕ) : ℤ) - 1 + (k + j)))
            (fun i j => img2x4.data (((0 : ℕ) : ℤ) - ((0 : ℕ) : ℤ) + i)
              ((1 : ℤ) - ((0 : ℕ) : ℤ) + j))
            (1 : ℤ).toNat (1 : ℤ).toNat) :=
  ⟨by decide, by decide, by decide, by decide,
    C3_score_row img2x4 img2x4 0 1 1 0 0 1
      (by decide) (by decide) (by decide) (by decide)⟩

/-! ### C8 -/

/-- C8: with identical left/right images, `mindisp = 0` and a block whose
sum of squares is non-zero, the score row at any in-range coordinate has
its entry at offset `k = numdisp` (the self-match alignment) equal to
exactly 1, and by Cauchy–Schwarz no entry exceeds 1 — so the row attains
its maximum value 1 at `k = numdisp`. -/
theorem C8_self_match (g : Mat) (numdisp : ℕ) (blocksize : ℤ)
    (w y : ℕ) (x : ℤ)
    (hbs : blocksize = 2 * w + 1)
    (hbl : 0 ≤ x - w ∧ x - w + blocksize ≤ g.cols ∧
      0 ≤ (y : ℤ) - w ∧ (y : ℤ) - w + blocksize ≤ g.rows)
    (hsl : 0 ≤ x - w - numdisp ∧ x + w + 1 ≤ g.cols ∧
      (y : ℤ) + w + 1 ≤ g.rows)
    (hnz : 0 < ∑ i ∈ Finset.range blocksize.toNat,
      ∑ j ∈ Finset.range blocksize.toNat,
      g.data ((y : ℤ) - w + i) (x - w + j) *
        g.data ((y : ℤ) - w + i) (x - w + j)) :
    ∃ row, scoreRowAt g g 0 blocksize (numdisp : ℤ) w y x = some row ∧
      row.length = numdisp + 1 ∧
      nccVal (row.getD numdisp default) = 1 ∧
      ∀ k : ℕ, k < row.length → nccVal (row.getD k default) ≤ 1 := by
  have hmd : (0 : ℤ) ≤ (numdisp : ℤ) := by positivity
  have hsl' : 0 ≤ x - w - (numdisp : ℤ) ∧
      x + w + 1 - 0 ≤ g.cols ∧ (y : ℤ) + w + 1 ≤ g.rows := by
    refine ⟨hsl.1, by omega, hsl.2.2⟩
  obtain ⟨row, hrow, hrlen, hrdef, _⟩ := body_eval hbs hmd hbl hsl'
  have hlen' : row.length = numdisp + 1 := by
    rw [hrlen]
    omega
  set S : ℕ := ∑ i ∈ Finset.range blocksize.toNat,
    ∑ j ∈ Finset.range blocksize.toNat,
    g.data ((y : ℤ) - w + i) (x - w + j) *
      g.data ((y : ℤ) - w + i) (x - w + j) with hS
  refine ⟨row, hrow, hlen', ?_, ?_⟩
  · have hk : numdisp < ((numdisp : ℤ) - 0 + 1).toNat := by omega
    rw [hrdef, getD_range_map _ hk]
    have hws : windowScore
        ⟨2 * w + 1, 2 * w + 1 + (numdisp : ℤ) - 0,
          fun i j => g.data (((y : ℤ) - w) + i) ((x - w - numdisp) + j)⟩
        ⟨blocksize, blocksize,
          fun i j => g.data (((y : ℤ) - w) + i) ((x - w) + j)⟩
        0 numdisp = ⟨S, S * S⟩ := by
      unfold windowScore
      simp only
      refine congrArg₂ Score.mk ?_ (congrArg₂ (· * ·) ?_ ?_)
      · rw [hS]
        refine Finset.sum_congr rfl fun i _ =>
          Finset.sum_congr rfl fun j _ => ?_
        push_cast
        ring_nf
      · rw [hS]
        refine Finset.sum_congr rfl fun i _ =>
          Finset.sum_congr rfl fun j _ => ?_
        push_cast
        ring_nf
      · rw [hS]
    rw [hws]
    exact nccVal_self (by omega)
  · intro k hk
    rw [hlen'] at hk
    have hk' : k < ((numdisp : ℤ) - 0 + 1).toNat := by omega
    rw [hrdef, getD_range_map _ hk']
    exact nccVal_le_one (windowScore_sq_le _ _ _ _)

/-- Witness for C8 at `img2x4`, `blocksize = 1`, `numdisp = 1`,
coordinate `(x, y) = (1, 0)` (block sample 2, self-match score
`4/√16 = 1`). -/
theorem C8_self_match_witness :
    ((1 : ℤ) = 2 * ((0 : ℕ) : ℤ) + 1) ∧
    (0 < ∑ i ∈ Finset.range (1 : ℤ).toNat, ∑ j ∈ Finset.range (1 : ℤ).toNat,
      img2x4.data (((0 : ℕ) : ℤ) - ((0 : ℕ) : ℤ) + i) ((1 : ℤ) - ((0 : ℕ) : ℤ) + j) *
        img2x4.data (((0 : ℕ) : ℤ) - ((0 : ℕ) : ℤ) + i) ((1 : ℤ) - ((0 : ℕ) : ℤ) + j)) ∧
    (∃ row, scoreRowAt img2x4 img2x4 0 1 ((1 : ℕ) : ℤ) 0 0 1 = some row ∧
      row.length = 1 + 1 ∧
      nccVal (row.getD 1 default) = 1 ∧
      ∀ k : ℕ, k < row.length → nccVal (row.getD k default) ≤ 1) :=
  ⟨by decide, by decide,
    C8_self_match img2x4 1 1 0 0 1 (by decide) (by decide) (by decide) (by decide)⟩

/-! ### C10 -/

/-- C10: the byte stored at an eligible coordinate is the selected index
reduced modulo 256 (the `int → uchar` store), and it equals the selected
index itself exactly when that index is below 256. -/
theorem C10_written_byte (limg rimg : Mat) (mindisp blocksize maxdisp : ℤ)
    (w y : ℕ) (x : ℤ)
    (hbs : blocksize = 2 * w + 1)
    (hmd : mindisp ≤ maxdisp)
    (hbl : 0 ≤ x - w ∧ x - w + blocksize ≤ limg.cols ∧
      0 ≤ (y : ℤ) - w ∧ (y : ℤ) - w + blocksize ≤ limg.rows)
    (hsl : 0 ≤ x - w - maxdisp ∧ x + w + 1 - mindisp ≤ rimg.cols ∧
      (y : ℤ) + w + 1 ≤ rimg.rows) :
    ∃ row, scoreRowAt limg rimg mindisp blocksize maxdisp w y x = some row ∧
      body limg rimg mindisp blocksize maxdisp w y x =
        .ok (((y : ℤ), x), selectBest row % 256) ∧
      (selectBest row % 256 = selectBest row ↔ selectBest row < 256) := by
  obtain ⟨row, hrow, _, _, hbd⟩ := body_eval hbs hmd hbl hsl
  refine ⟨row, hrow, hbd, ?_⟩
  constructor
  · intro h
    have h2 := Nat.mod_lt (selectBest row) (show 0 < 256 by norm_num)
    omega
  · exact Nat.mod_eq_of_lt

/-- Witness for C10 at `img2x4`, `blocksize = 1`, `numdisp = 1`,
`mindisp = 0`, coordinate `(x, y) = (2, 0)`. -/
theorem C10_written_byte_witness :
    ((1 : ℤ) = 2 * ((0 : ℕ) : ℤ) + 1) ∧ ((0 : ℤ) ≤ 1) ∧
    (∃ row, scoreRowAt img2x4 img2x4 0 1 1 0 0 2 = some row ∧
      body img2x4 img2x4 0 1 1 0 0 2 =
        .ok ((((0 : ℕ) : ℤ), 2), selectBest row % 256) ∧
      (selectBest row % 256 = selectBest row ↔ selectBest row < 256)) :=
  ⟨by decide, by decide,
    C10_written_byte img2x4 img2x4 0 1 1 0 0 2
      (by decide) (by decide) (by decide) (by decide)⟩

/-! ### C1 counterexample and witness -/

/-- C1 counterexample: at `rows = 1`, `blocksize = 3`, `numdisp = 2`,
`mindisp = 0` the claimed visited set is empty, yet the engine does not
perform an empty visit: the wrapped `unsigned` row bound lets it visit
`(x, y) = (3, 1)`, where block extraction throws — so the run neither
visits exactly the claimed coordinates nor writes the claimed cells. -/
theorem C1_counterexample :
    specCoords img1x9.rows img1x9.cols 2 0 3 = [] ∧
    compute_dispmap_trace img1x9 img1x9 2 0 3 = .error () :=
  ⟨rfl, rfl⟩

/-- Witness for C1 (amended) at `img2x4`, `numdisp = 1`, `mindisp = 0`,
`blocksize = 1`: the engine visits `(1,0)` and `(2,0)` and writes the
selected indices (both 0, ties resolved to the first offset). -/
theorem C1_engine_visits_and_writes_witness :
    (img2x4.rows = img2x4.rows ∧ img2x4.cols = img2x4.cols ∧
      img2x4.rows < 2 ^ 31 ∧ img2x4.cols < 2 ^ 31 ∧
      (0 : ℤ) < 1 ∧ (1 : ℤ) < 2 ^ 30 ∧ (1 : ℤ) % 2 = 1 ∧
      ((1 : ℕ) : ℤ) < 2 ^ 30 ∧ -(2 : ℤ) ^ 30 < 0 ∧ (0 : ℤ) ≤ 1 ∧
      0 ≤ ((1 : ℕ) : ℤ) + 0 ∧ (1 : ℤ) / 2 < img2x4.rows ∧
      (1 : ℤ) / 2 < img2x4.cols + 0) ∧
    compute_dispmap_trace img2x4 img2x4 1 0 1 =
      .ok [(((0 : ℤ), (1 : ℤ)), 0), ((0, 2), 0)] := by
  refine ⟨⟨rfl, rfl, by decide, by decide, by decide, by decide, by decide,
    by decide, by decide, by decide, by decide, by decide, by decide⟩, ?_⟩
  rw [C1_engine_visits_and_writes img2x4 img2x4 1 0 1 rfl rfl (by decide)
    (by decide) (by decide) (by decide) (by decide) (by decide) (by decide)
    (by decide) (by decide) (by decide) (by decide)]
  rfl

/-! ### C7 -/

/-- C7 (amended): with equal image dimensions, odd `blocksize`,
`numdisp + mindisp ≥ 0` and `mindisp ≤ 1`, at every spec-eligible
coordinate both the block rectangle and the strip rectangle lie fully
inside their grids, so the extractors' OutOfBounds failure is unreachable
inside the engine loop. -/
theorem C7_no_oob_at_eligible (limg rimg : Mat) (numdisp : ℕ)
    (mindisp blocksize : ℤ) (w y : ℕ) (x : ℤ)
    (hdimr : rimg.rows = limg.rows) (hdimc : rimg.cols = limg.cols)
    (hodd : blocksize % 2 = 1) (hbs0 : 0 < blocksize)
    (hw : (w : ℤ) = blocksize / 2)
    (hmaxd : 0 ≤ (numdisp : ℤ) + mindisp) (hmd1 : mindisp ≤ 1)
    (hel : eligible limg.rows limg.cols numdisp mindisp blocksize (y : ℤ) x) :
    (submat limg (blockRect x y w blocksize)).isSome ∧
    (submat rimg (sliceRect x y w mindisp ((numdisp : ℤ) + mindisp))).isSome := by
  obtain ⟨h1, h2, h3, h4⟩ := hel
  have hbsw : blocksize = 2 * (blocksize / 2) + 1 := by omega
  constructor
  · rw [submat_eq (by unfold blockRect; simp only; omega)]
    rfl
  · rw [@sliceRect_eq x y w mindisp ((numdisp : ℤ) + mindisp) (by omega)]
    rw [submat_eq (by simp only; rw [hdimr, hdimc]; omega)]
    rfl

/-- C7 counterexample: `rows = 2`, `cols = 3`, `numdisp = 0`,
`mindisp = 2`, `blocksize = 1`.  The coordinate `(x, y) = (3, 0)` is
spec-eligible, yet the block rectangle `{(3,0), 1×1}` pokes out of the
3-column left image, so block extraction fails with OutOfBounds inside
the engine's own bounds. -/
theorem C7_counterexample :
    eligible img2x3.rows img2x3.cols 0 2 1 0 3 ∧
    submat img2x3 (blockRect 3 0 0 1) = none :=
  ⟨by decide, rfl⟩

/-- Witness for C7 (amended) at `img2x4`, `numdisp = 1`, `mindisp = 0`,
`blocksize = 1`, coordinate `(x, y) = (1, 0)`. -/
theorem C7_no_oob_at_eligible_witness :
    ((1 : ℤ) % 2 = 1 ∧ (0 : ℤ) < 1 ∧ (((0 : ℕ) : ℤ) = (1 : ℤ) / 2) ∧
      0 ≤ ((1 : ℕ) : ℤ) + 0 ∧ (0 : ℤ) ≤ 1 ∧
      eligible img2x4.rows img2x4.cols 1 0 1 ((0 : ℕ) : ℤ) 1) ∧
    ((submat img2x4 (blockRect 1 0 0 1)).isSome ∧
     (submat img2x4 (sliceRect 1 0 0 0 (((1 : ℕ) : ℤ) + 0))).isSome) :=
  ⟨⟨by decide, by decide, by decide, by decide, by decide, by decide⟩,
    C7_no_oob_at_eligible img2x4 img2x4 1 0 1 0 0 1 rfl rfl
      (by decide) (by decide) (by decide) (by decide) (by decide) (by decide)⟩

/-! ### C5 -/

/-- C5: whenever a run completes without an exception, the returned
disparity grid has exactly the left image's `rows × cols` dimensions,
and every cell outside the spec-eligible coordinate range is never
written — it retains the (arbitrary) allocation-time contents `init`. -/
theorem C5_result_dims_and_frame (limg rimg : Mat) (numdisp : ℕ)
    (mindisp blocksize : ℤ) (init : ℤ → ℤ → ℕ) (tr : List ((ℤ × ℤ) × ℕ))
    (hrows0 : 0 ≤ limg.rows) (hrows31 : limg.rows < 2 ^ 31)
    (hcols0 : 0 ≤ limg.cols) (hcols31 : limg.cols < 2 ^ 31)
    (hbs0 : 0 < blocksize) (hbs29 : blocksize < 2 ^ 29)
    (hodd : blocksize % 2 = 1)
    (hnd : (numdisp : ℤ) < 2 ^ 29)
    (hmdlow : -2 ^ 29 < mindisp) (hmdhigh : mindisp < 2 ^ 29)
    (htr : compute_dispmap_trace limg rimg numdisp mindisp blocksize = .ok tr) :
    compute_dispmap limg rimg numdisp mindisp blocksize init =
      .ok ⟨limg.rows, limg.cols, applyWrites init tr⟩ ∧
    ∀ y x : ℤ, ¬ eligible limg.rows limg.cols numdisp mindisp blocksize y x →
      applyWrites init tr y x = init y x := by
  constructor
  · unfold compute_dispmap
    rw [htr]
    rfl
  · intro y x hnel
    refine applyWrites_not_written tr init y x fun e he hcon => hnel ?_
    have helig := writes_eligible limg rimg numdisp mindisp blocksize tr
      hrows0 hrows31 hcols0 hcols31 hbs0 hbs29 hodd hnd hmdlow hmdhigh htr e he
    rw [hcon] at helig
    exact helig

/-- Witness for C5 at `img2x4`, `numdisp = 1`, `mindisp = 0`,
`blocksize = 1` with allocation contents `initW`. -/
theorem C5_result_dims_and_frame_witness :
    (0 ≤ img2x4.rows ∧ (0 : ℤ) < 1 ∧ (1 : ℤ) % 2 = 1 ∧
      compute_dispmap_trace img2x4 img2x4 1 0 1 = .ok trW) ∧
    (compute_dispmap img2x4 img2x4 1 0 1 initW =
        .ok ⟨img2x4.rows, img2x4.cols, applyWrites initW trW⟩ ∧
      ∀ y x : ℤ, ¬ eligible img2x4.rows img2x4.cols 1 0 1 y x →
        applyWrites initW trW y x = initW y x) :=
  ⟨⟨by decide, by decide, by decide, rfl⟩,
    C5_result_dims_and_frame img2x4 img2x4 1 0 1 initW trW
      (by decide) (by decide) (by decide) (by decide) (by decide) (by decide)
      (by decide) (by decide) (by decide) (by decide) rfl⟩

end StereoMatch
